import Mathlib

/-!
Console file explorer: permission codec, listing, search and tree operations.

A shallow embedding of `src/file_explorer.cpp`.

* strings are `List Char`;
* `fs::perms` is an `unsigned` bit mask, embedded as a `Nat` below `2 ^ 32`;
* the file system itself is not embedded: a command is embedded as the
  sequence of file-system requests it issues and of lines it prints, given what
  the library iterators hand to it.
-/

namespace FileExplorer

/-! ## `fs::perms` -/

/-- The enumerators of `fs::perms` used by the program (values fixed by the C++ standard). -/
def perms_none : Nat := 0
def owner_read : Nat := 0o400
def owner_write : Nat := 0o200
def owner_exec : Nat := 0o100
def group_read : Nat := 0o40
def group_write : Nat := 0o20
def group_exec : Nat := 0o10
def others_read : Nat := 0o4
def others_write : Nat := 0o2
def others_exec : Nat := 0o1

/-- The nine permission flags, in the order of `perm_string`. -/
def permFlags : List Nat :=
  [owner_read, owner_write, owner_exec, group_read, group_write, group_exec,
   others_read, others_write, others_exec]

/-- `~(unsigned(bits))`: complement on 32 bits. -/
def unsignedNot (bits : Nat) : Nat := 4294967295 ^^^ (bits % 4294967296)

/-- `perm_string`: one character per flag, the letter when the flag is set. -/
def perm_string (p : Nat) : List Char :=
  let bit := fun (b : Nat) (c : Char) => if p &&& b ≠ perms_none then c else '-'
  [bit owner_read 'r', bit owner_write 'w', bit owner_exec 'x',
   bit group_read 'r', bit group_write 'w', bit group_exec 'x',
   bit others_read 'r', bit others_write 'w', bit others_exec 'x']

/-! ## `cmd_chmod` -/

/-- The lambda `setbits` of `apply_symbolic`: owner, group and others flag of a letter. -/
def setbits (p : Char) : Nat × Nat × Nat :=
  if p = 'r' then (owner_read, group_read, others_read)
  else if p = 'w' then (owner_write, group_write, others_write)
  else if p = 'x' then (owner_exec, group_exec, others_exec)
  else (perms_none, perms_none, perms_none)

/-- Element `idx` of the array returned by `setbits` (`idx` is 0, 1 or 2). -/
def arrAt (arr : Nat × Nat × Nat) (idx : Nat) : Nat :=
  if idx = 0 then arr.1 else if idx = 1 then arr.2.1 else arr.2.2

/-- The lambda `apply_symbolic` of `cmd_chmod`. -/
def apply_symbolic (cur : Nat) (who op : Char) (perms : List Char) : Nat :=
  let idx : Nat := if who = 'u' then 0 else if who = 'g' then 1 else if who = 'o' then 2 else 3
  if idx = 3 then
    let bits := perms.foldl
      (fun bits c => bits ||| (arrAt (setbits c) 0 ||| arrAt (setbits c) 1 ||| arrAt (setbits c) 2))
      perms_none
    if op = '+' then cur ||| bits
    else if op = '-' then cur &&& unsignedNot bits
    else cur
  else
    let bits := perms.foldl (fun bits c => bits ||| arrAt (setbits c) idx) perms_none
    if op = '+' then cur ||| bits
    else if op = '-' then cur &&& unsignedNot bits
    else cur

/-- The lambda `parse_octal` of `cmd_chmod`: `::isdigit` accepts `'0'..'9'`. -/
def parse_octal (s : List Char) : Option Nat :=
  if s.length ≠ 3 ∨ ¬ (s.all Char.isDigit = true) then none
  else
    let u := (s.getD 0 '0').toNat - 48
    let g := (s.getD 1 '0').toNat - 48
    let o := (s.getD 2 '0').toNat - 48
    let res := perms_none
    let res := if u &&& 4 ≠ 0 then res ||| owner_read else res
    let res := if u &&& 2 ≠ 0 then res ||| owner_write else res
    let res := if u &&& 1 ≠ 0 then res ||| owner_exec else res
    let res := if g &&& 4 ≠ 0 then res ||| group_read else res
    let res := if g &&& 2 ≠ 0 then res ||| group_write else res
    let res := if g &&& 1 ≠ 0 then res ||| group_exec else res
    let res := if o &&& 4 ≠ 0 then res ||| others_read else res
    let res := if o &&& 2 ≠ 0 then res ||| others_write else res
    let res := if o &&& 1 ≠ 0 then res ||| others_exec else res
    some res

/-- The body of the `while(std::getline(ss, tok, ','))` loop for one token. -/
def clauseStep (newp : Nat) (tok : List Char) : Nat :=
  if tok.length < 3 then newp
  else apply_symbolic newp (tok.getD 0 ' ') (tok.getD 1 ' ') (tok.drop 2)

/-- The loop `while(std::getline(ss, tok, ',')) { ... }`, character by character:
`ss` is what is left in the stream, `tok` the characters `getline` has extracted
so far for the current token. A `','` ends the token (which may be empty) and
the body runs on it; at the end of the stream a non-empty token is still
delivered, while a `getline` that extracts nothing fails and ends the loop. -/
def symbolicLoop : List Char → List Char → Nat → Nat
  | [], tok, newp => if tok = [] then newp else clauseStep newp tok
  | c :: ss, tok, newp =>
    if c = ',' then symbolicLoop ss [] (clauseStep newp tok)
    else symbolicLoop ss (tok ++ [c]) newp

/-- The permission set `cmd_chmod` computes for one path: `newp` after
`if(auto oct=parse_octal(mode)){ newp = *oct; }else{ ... }`, where `cur` is
`st.permissions()`. -/
def decode (mode : List Char) (cur : Nat) : Nat :=
  match parse_octal mode with
  | some oct => oct
  | none => symbolicLoop mode [] cur

/-- What one iteration of the `for` loop of `cmd_chmod` does for a path. -/
inductive ChmodOutcome where
  /-- `fs::status` failed: the message is printed and the path is skipped. -/
  | statusError
  /-- `fs::permissions(p, newp, ec)` is called with this `newp`. -/
  | applied (newp : Nat)
  deriving DecidableEq, Repr

/-- One iteration of the `for` loop of `cmd_chmod`; `st` is the result of
`fs::status(p, ec)`: `none` when `ec` is set, else the permissions. -/
def chmodOne (mode : List Char) (st : Option Nat) : ChmodOutcome :=
  match st with
  | none => ChmodOutcome.statusError
  | some cur => ChmodOutcome.applied (decode mode cur)

/-- The run of `cmd_chmod` on `args`: `none` is the usage message
(`args.size()<2`), else one outcome per path argument; `status` is `fs::status`
on the path `ctx.cwd/args[i]`. -/
def cmd_chmod (status : List Char → Option Nat) (args : List (List Char)) :
    Option (List ChmodOutcome) :=
  if args.length < 2 then none
  else some ((args.drop 1).map (fun a => chmodOne (args.getD 0 []) (status a)))

/-- The mode string written with the three digits `d1 d2 d3` (each below 10):
the characters `'0' + d1`, `'0' + d2`, `'0' + d3`. -/
def octalMode (d1 d2 d3 : Nat) : List Char :=
  [Char.ofNat (48 + d1), Char.ofNat (48 + d2), Char.ofNat (48 + d3)]

/-- The symbolic form as the specification words it: the comma-separated
clauses of the mode string, those shorter than 3 characters dropped, folded
over `apply_symbolic` from left to right. -/
def symbolicSpec (mode : List Char) (cur : Nat) : Nat :=
  ((mode.splitOn ',').filter (fun tok => 3 ≤ tok.length)).foldl
    (fun p tok => apply_symbolic p (tok.getD 0 ' ') (tok.getD 1 ' ') (tok.drop 2)) cur

/-! ## Paths and the session context -/

/-- The session context `Ctx`. -/
structure Ctx where
  cwd : List Char
  force : Bool := false
  deriving DecidableEq, Repr

/-- The member `fs::path::is_absolute` on POSIX: the path starts with `/`. -/
def is_absolute (p : List Char) : Bool := p.head? = some '/'

/-- The operator `p / q` of `fs::path` on POSIX: an absolute `q` (or an empty
`p`) gives `q`; otherwise `q` is appended, after a separator when `p` has a
filename (does not end in `/`). -/
def pathJoin (p q : List Char) : List Char :=
  if is_absolute q ∨ p = [] then q
  else if p.getLast? = some '/' then p ++ q
  else p ++ '/' :: q

/-- The member `fs::path::filename`: what follows the last `/`. -/
def filename (p : List Char) : List Char :=
  (p.reverse.takeWhile (fun c => c ≠ '/')).reverse

/-- The member `fs::path::parent_path`: the path without its last component. -/
def parent_path (p : List Char) : List Char :=
  let d := ((p.reverse.dropWhile (fun c => c ≠ '/')).dropWhile (fun c => c = '/')).reverse
  if d = [] ∧ is_absolute p then ['/'] else d

/-! ## `cmd_ls` -/

/-- The C function `isspace` in the "C" locale. -/
def isspace (c : Char) : Bool := c = ' ' ∨ (9 ≤ c.toNat ∧ c.toNat ≤ 13)

/-- The function `std::stoi`: leading white space, an optional sign, then decimal
digits; what follows the digits is ignored. `none` is a thrown exception:
`std::invalid_argument` when there is no digit, `std::out_of_range` when the
value does not fit an `int`. -/
def stoi (s : List Char) : Option Int :=
  let s1 := s.dropWhile isspace
  let neg := s1.head? = some '-'
  let s2 := if s1.head? = some '-' ∨ s1.head? = some '+' then s1.drop 1 else s1
  let ds := s2.takeWhile Char.isDigit
  if ds = [] then none
  else
    let v : Int := (ds.foldl (fun n c => 10 * n + (c.toNat - 48)) 0 : Nat)
    let r : Int := if neg then -v else v
    if r < -2147483648 ∨ 2147483647 < r then none else some r

/-- The member `std::string::substr(pos)`: `none` is `std::out_of_range`,
thrown when `pos > size()`. -/
def substr (s : List Char) (pos : Nat) : Option (List Char) :=
  if s.length < pos then none else some (s.drop pos)

/-- The local variables of `cmd_ls` set by its argument loop. -/
structure LsOpts where
  all : Bool
  longfmt : Bool
  target : List Char
  tree : Bool
  depth : Int
  deriving DecidableEq, Repr

/-- One iteration of the argument loop of `cmd_ls`; `none` when `substr` or
`std::stoi` throws (nothing in the program catches it). -/
def lsArg (o : LsOpts) (a : List Char) : Option LsOpts :=
  if a = "-a".toList then some { o with all := true }
  else if a = "-l".toList then some { o with longfmt := true }
  else if a = "--tree".toList then some { o with tree := true, depth := 10 }
  else if "--depth=".toList.isPrefixOf a then
    match substr a 9 with
    | none => none
    | some digits =>
      match stoi digits with
      | none => none
      | some d => some { o with tree := true, depth := d }
  else some { o with target := a }

/-- The argument loop of `cmd_ls`, from the initial values
`all=false, longfmt=false, target=ctx.cwd, tree=false, depth=1`. -/
def lsParse (ctx : Ctx) (args : List (List Char)) : Option LsOpts :=
  args.foldlM lsArg
    { all := false, longfmt := false, target := ctx.cwd, tree := false, depth := 1 }

/-- The dispatch of `tree` in `main`: `cmd_ls` on the arguments with `--tree`
inserted in front. -/
def treeParse (ctx : Ctx) (args : List (List Char)) : Option LsOpts :=
  lsParse ctx ("--tree".toList :: args)

/-- The comparison `a.path().filename() < b.path().filename()` of the sort in
`cmd_ls`: for single-component paths, the lexicographic order of the strings. -/
def filenameLt : List Char → List Char → Bool
  | _, [] => false
  | [], _ :: _ => true
  | a :: as, b :: bs => if a < b then true else if b < a then false else filenameLt as bs

/-- Insertion of one name in front of the first name it is smaller than. -/
def sortInsert (x : List Char) : List (List Char) → List (List Char)
  | [] => [x]
  | y :: ys => if filenameLt x y then x :: y :: ys else y :: sortInsert x ys

/-- The call `std::sort(entries.begin(), entries.end(), cmp)` with the comparison
`filenameLt`. The library routine is not part of the program; it is embedded as
an insertion sort. The names in one directory are distinct, so every sorting
routine gives the same sequence. -/
def stdSort : List (List Char) → List (List Char)
  | [] => []
  | x :: xs => sortInsert x (stdSort xs)

/-- The test `name.size()>0 && name[0]=='.'` of `list_one`. -/
def isHidden (name : List Char) : Bool := name.head? = some '.'

/-- The lambda `list_one` of `cmd_ls`, as the names it emits: nothing for a
hidden name without `-a`, else one line for the entry. With `-l` the line
carries more columns in front of the name; those are not embedded. -/
def list_one (all : Bool) (name : List Char) : List (List Char) :=
  if !all && isHidden name then [] else [name]

/-- The non-tree branch of `cmd_ls` for a directory target: the entries of
`fs::directory_iterator` (file names, in the order the iterator gives them) are
sorted and passed to `list_one` one after the other. -/
def lsFlat (all : Bool) (entries : List (List Char)) : List (List Char) :=
  (stdSort entries).flatMap (list_one all)

/-! ## `cmd_find` -/

/-- The local variables of `cmd_find` set by its argument loop. -/
structure FindOpts where
  root : List Char
  pattern : List Char
  regex_mode : Bool
  deriving DecidableEq, Repr

/-- One iteration of the argument loop of `cmd_find`. -/
def findArg (o : FindOpts) (a : List Char) : FindOpts :=
  if a = "-r".toList then { o with regex_mode := true }
  else if "--in=".toList.isPrefixOf a then { o with root := a.drop 5 }
  else { o with pattern := a }

/-- The argument loop of `cmd_find`, from the initial values
`root=ctx.cwd, pattern=".*", regex_mode=false`. -/
def findParse (ctx : Ctx) (args : List (List Char)) : FindOpts :=
  args.foldl findArg { root := ctx.cwd, pattern := ".*".toList, regex_mode := false }

/-- The test `name.find(pattern)!=std::string::npos`: `pattern` occurs in `name`. -/
def substringFound (name pattern : List Char) : Bool :=
  name.tails.any (fun t => pattern.isPrefixOf t)

/-- The match test of the loop of `cmd_find`. The library function
`std::regex_search` is a parameter: `regex_search name pattern`; the
construction `std::regex(pattern)`, which throws on a malformed pattern, is not
embedded. -/
def findMatch (regex_search : List Char → List Char → Bool) (o : FindOpts)
    (name : List Char) : Bool :=
  if o.regex_mode then regex_search name o.pattern else substringFound name o.pattern

/-- What `cmd_find` prints. -/
inductive FindLine where
  /-- The path of a matching entry, on standard output. -/
  | found (path : List Char)
  /-- The line `find: interrupted`, on standard error. -/
  | interrupted
  deriving DecidableEq, Repr

/-- The loop of `cmd_find` over the entries the recursive iterator delivers. Each
visit is the value `g_should_exit` has when the iteration starts, and the path
of the entry. -/
def findLoop (regex_search : List Char → List Char → Bool) (o : FindOpts) :
    List (Bool × List Char) → List FindLine
  | [] => []
  | (flag, path) :: rest =>
    if flag then [FindLine.interrupted]
    else if findMatch regex_search o (filename path) then
      FindLine.found path :: findLoop regex_search o rest
    else findLoop regex_search o rest

/-! ## `copy_file_or_dir`, `remove_path`, `cmd_mv` -/

/-- The type of a file, as `fs::file_type`. -/
inductive FileType where
  | regular | directory | symlink | other
  deriving DecidableEq, Repr

/-- An entry `e` delivered by `fs::recursive_directory_iterator(src, ...)`:
* `path` is `e.path()`, the path of the entry itself, below `src`;
* `type` is its own type (`symlink_status`);
* `resolved` is, for a symbolic link, the type of what it resolves to (`status`;
  `none` for a dangling link);
* `link_text` is the result of `fs::read_symlink(e.path(), ec2)` (`none` when
  `ec2` is set);
* `canonical` is `fs::weakly_canonical(e.path())`, which follows symbolic links:
  for a link that resolves it is the canonical path of what the link resolves
  to; for a dangling link and for an entry that is not a link it is the path of
  the entry itself (`src` is canonical and the iterator does not walk through
  links to directories). -/
structure DirEntry where
  path : List Char
  type : FileType
  resolved : Option FileType := none
  link_text : Option (List Char) := none
  canonical : List Char := path
  deriving DecidableEq, Repr

/-- The member `directory_entry::is_directory`: follows symbolic links. -/
def DirEntry.is_directory (e : DirEntry) : Bool :=
  if e.type = FileType.symlink then e.resolved = some FileType.directory
  else e.type = FileType.directory

/-- The member `directory_entry::is_symlink`: does not follow symbolic links. -/
def DirEntry.is_symlink (e : DirEntry) : Bool := e.type = FileType.symlink

/-- The requests the tree operations send to the file system. -/
inductive FsOp where
  | create_directories (p : List Char)
  | create_symlink (target link : List Char)
  | copy_file (src dst : List Char)
  | remove_all (p : List Char)
  | rename (src dst : List Char)
  deriving DecidableEq, Repr

/-- The elements of a path: what stands between the separators. -/
def components (p : List Char) : List (List Char) :=
  (p.splitOn '/').filter (fun c => c ≠ [])

/-- The two element sequences without their common leading elements
(`std::mismatch`). -/
def stripCommon : List (List Char) → List (List Char) → List (List Char) × List (List Char)
  | a :: as, b :: bs => if a = b then stripCommon as bs else (a :: as, b :: bs)
  | as, bs => (as, bs)

/-- The member `fs::path::lexically_relative` for two absolute paths in normal
form, as `fs::weakly_canonical` returns them: `.` when the paths are equal, else
one `..` for each element of `base` after the common leading elements, followed
by the elements of `p` after them. -/
def lexically_relative (p base : List Char) : List Char :=
  let r := stripCommon (components p) (components base)
  if r.1 = [] ∧ r.2 = [] then ['.']
  else ['/'].intercalate (List.replicate r.2.length ['.', '.'] ++ r.1)

/-- The call `fs::relative(e.path(), src, ec)`:
`weakly_canonical(e.path()).lexically_relative(weakly_canonical(src))`, where
`src` is canonical already (`cmd_cp` and `cmd_mv` pass the result of
`fs::weakly_canonical`). -/
def relative (e : DirEntry) (src : List Char) : List Char :=
  lexically_relative e.canonical src

/-- The body of the loop of `copy_file_or_dir` for one entry. -/
def copyEntry (src dst : List Char) (e : DirEntry) : List FsOp :=
  let rel := relative e src
  let out := pathJoin dst rel
  if e.is_directory then [FsOp.create_directories out]
  else if e.is_symlink then
    match e.link_text with
    | some target => [FsOp.create_directories (parent_path out), FsOp.create_symlink target out]
    | none => []
  else [FsOp.create_directories (parent_path out), FsOp.copy_file e.path out]

/-- The function `copy_file_or_dir`, as the requests it issues. `src_is_dir` is
`fs::is_directory(src)`; each visit is the value `g_should_exit` has when the
iteration for the entry starts (the function never reads it) and the entry. -/
def copy_file_or_dir (src dst : List Char) (src_is_dir : Bool)
    (visits : List (Bool × DirEntry)) : List FsOp :=
  if src_is_dir then
    FsOp.create_directories dst :: visits.flatMap (fun v => copyEntry src dst v.2)
  else [FsOp.create_directories (parent_path dst), FsOp.copy_file src dst]

/-- Whether `copy_file_or_dir` leaves by `throw std::system_error(ec)`: only in
the branch for a source that is not a directory, when `fs::copy_file` failed
(`copy_failed`). In the directory branch the error codes are dropped. -/
def copyThrows (src_is_dir copy_failed : Bool) : Bool := !src_is_dir && copy_failed

/-- The function `remove_path`: one call of `fs::remove_all`; `flag` is
`g_should_exit` at the call (the function never reads it). -/
def remove_path (_flag : Bool) (p : List Char) : List FsOp := [FsOp.remove_all p]

/-- The fallback of `cmd_mv` after a failed `fs::rename`:
`try{ copy_file_or_dir(src, dst); remove_path(src);}catch(...)`. The copy runs,
and `remove_path` follows unless the copy threw. -/
def mvFallback (src dst : List Char) (src_is_dir : Bool) (visits : List (Bool × DirEntry))
    (flag : Bool) (copy_failed : Bool) : List FsOp :=
  copy_file_or_dir src dst src_is_dir visits ++
    (if copyThrows src_is_dir copy_failed then [] else remove_path flag src)

/-! ## The path each command works on -/

/-- The path `cmd_cd` canonicalises: `dest.is_absolute()?dest:(ctx.cwd/dest)`. -/
def cdPath (ctx : Ctx) (dest : List Char) : List Char :=
  if is_absolute dest then dest else pathJoin ctx.cwd dest

/-- The path `ctx.cwd/a` built by `cmd_cp`, `cmd_mv`, `cmd_rm`, `cmd_mkdir`,
`cmd_touch`, `cmd_cat`, `cmd_chmod` and `cmd_info` for a path argument `a`. -/
def cwdPath (ctx : Ctx) (a : List Char) : List Char := pathJoin ctx.cwd a

/-- The path `cmd_ls` lists for the arguments `args` (`none` when parsing throws). -/
def lsPath (ctx : Ctx) (args : List (List Char)) : Option (List Char) :=
  (lsParse ctx args).map (fun o => o.target)

/-- The path `cmd_find` walks for the arguments `args`. -/
def findPath (ctx : Ctx) (args : List (List Char)) : List Char :=
  (findParse ctx args).root


/-! ## Theorems -/

/-- The octal branch on three digits below 8. -/
theorem parse_octal_digits (d1 d2 d3 : Nat) (h1 : d1 < 8) (h2 : d2 < 8) (h3 : d3 < 8) :
    parse_octal (octalMode d1 d2 d3) = some (64 * d1 + 8 * d2 + d3) := by
  interval_cases d1 <;> interval_cases d2 <;> interval_cases d3 <;> rfl

/-- Bit `i` of the 32-bit complement. -/
theorem testBit_unsignedNot (b i : Nat) :
    (unsignedNot b).testBit i = (decide (i < 32) && !b.testBit i) := by
  have e1 : (4294967295 : Nat) = 2 ^ 32 - 1 := by norm_num
  have e2 : (4294967296 : Nat) = 2 ^ 32 := by norm_num
  unfold unsignedNot
  rw [Nat.testBit_xor, e1, e2, Nat.testBit_two_pow_sub_one, Nat.testBit_mod_two_pow]
  by_cases h : i < 32 <;> simp [h]

/-- Bit `i` of the owner-execute flag. -/
theorem testBit_owner_exec (i : Nat) : owner_exec.testBit i = decide (6 = i) := by
  have e : owner_exec = 2 ^ 6 := by decide
  rw [e, Nat.testBit_two_pow]

/-- The clause list `u+x,u-x` clears the owner-execute flag and nothing else. -/
theorem decode_ux_roundtrip (P : Nat) :
    decode "u+x,u-x".toList P = P &&& unsignedNot owner_exec := by
  have h : decode "u+x,u-x".toList P = (P ||| owner_exec) &&& unsignedNot owner_exec := by
    simp [decode, parse_octal, symbolicLoop, clauseStep, apply_symbolic, setbits, arrAt,
      perms_none]
  rw [h]
  apply Nat.eq_of_testBit_eq
  intro i
  simp only [Nat.testBit_and, Nat.testBit_or, testBit_unsignedNot, testBit_owner_exec]
  by_cases h6 : 6 = i <;> simp [h6]

/-- C1: for a mode string of three digits `d1 d2 d3`, each in 0..7, the
permission set computed by `cmd_chmod` (the `parse_octal` branch, `newp = *oct`)
is the same for every starting set; owner, group and others read, write and
execute are set exactly when bit 4, 2 and 1 of `d1`, `d2` and `d3` are set, and
no flag outside these nine is set. -/
theorem C1_octal_replaces (d1 d2 d3 : Nat) (h1 : d1 < 8) (h2 : d2 < 8) (h3 : d3 < 8)
    (cur cur' : Nat) :
    decode (octalMode d1 d2 d3) cur = decode (octalMode d1 d2 d3) cur' ∧
    ((decode (octalMode d1 d2 d3) cur &&& owner_read ≠ 0) ↔ d1 &&& 4 ≠ 0) ∧
    ((decode (octalMode d1 d2 d3) cur &&& owner_write ≠ 0) ↔ d1 &&& 2 ≠ 0) ∧
    ((decode (octalMode d1 d2 d3) cur &&& owner_exec ≠ 0) ↔ d1 &&& 1 ≠ 0) ∧
    ((decode (octalMode d1 d2 d3) cur &&& group_read ≠ 0) ↔ d2 &&& 4 ≠ 0) ∧
    ((decode (octalMode d1 d2 d3) cur &&& group_write ≠ 0) ↔ d2 &&& 2 ≠ 0) ∧
    ((decode (octalMode d1 d2 d3) cur &&& group_exec ≠ 0) ↔ d2 &&& 1 ≠ 0) ∧
    ((decode (octalMode d1 d2 d3) cur &&& others_read ≠ 0) ↔ d3 &&& 4 ≠ 0) ∧
    ((decode (octalMode d1 d2 d3) cur &&& others_write ≠ 0) ↔ d3 &&& 2 ≠ 0) ∧
    ((decode (octalMode d1 d2 d3) cur &&& others_exec ≠ 0) ↔ d3 &&& 1 ≠ 0) ∧
    (∀ i, 9 ≤ i → (decode (octalMode d1 d2 d3) cur).testBit i = false) := by
  have hp := parse_octal_digits d1 d2 d3 h1 h2 h3
  have hd : ∀ c, decode (octalMode d1 d2 d3) c = 64 * d1 + 8 * d2 + d3 := by
    intro c
    simp only [decode, hp]
  rw [hd cur, hd cur']
  have hbits : ((64 * d1 + 8 * d2 + d3 &&& owner_read ≠ 0) ↔ d1 &&& 4 ≠ 0) ∧
      ((64 * d1 + 8 * d2 + d3 &&& owner_write ≠ 0) ↔ d1 &&& 2 ≠ 0) ∧
      ((64 * d1 + 8 * d2 + d3 &&& owner_exec ≠ 0) ↔ d1 &&& 1 ≠ 0) ∧
      ((64 * d1 + 8 * d2 + d3 &&& group_read ≠ 0) ↔ d2 &&& 4 ≠ 0) ∧
      ((64 * d1 + 8 * d2 + d3 &&& group_write ≠ 0) ↔ d2 &&& 2 ≠ 0) ∧
      ((64 * d1 + 8 * d2 + d3 &&& group_exec ≠ 0) ↔ d2 &&& 1 ≠ 0) ∧
      ((64 * d1 + 8 * d2 + d3 &&& others_read ≠ 0) ↔ d3 &&& 4 ≠ 0) ∧
      ((64 * d1 + 8 * d2 + d3 &&& others_write ≠ 0) ↔ d3 &&& 2 ≠ 0) ∧
      ((64 * d1 + 8 * d2 + d3 &&& others_exec ≠ 0) ↔ d3 &&& 1 ≠ 0) := by
    interval_cases d1 <;> interval_cases d2 <;> interval_cases d3 <;> decide
  obtain ⟨b1, b2, b3, b4, b5, b6, b7, b8, b9⟩ := hbits
  refine ⟨rfl, b1, b2, b3, b4, b5, b6, b7, b8, b9, ?_⟩
  · intro i hi
    apply Nat.testBit_lt_two_pow
    calc 64 * d1 + 8 * d2 + d3 < 2 ^ 9 := by norm_num; omega
      _ ≤ 2 ^ i := Nat.pow_le_pow_right (by norm_num) hi

/-- C1 at the mode `750` with the starting sets `0o644` and `0o7777`. -/
theorem C1_octal_replaces_witness :
    octalMode 7 5 0 = "750".toList ∧
    decode (octalMode 7 5 0) 0o644 = decode (octalMode 7 5 0) 0o7777 ∧
    decode (octalMode 7 5 0) 0o644 &&& owner_read ≠ 0 ∧
    ¬ (decode (octalMode 7 5 0) 0o644 &&& others_read ≠ 0) :=
  have h := C1_octal_replaces 7 5 0 (by decide) (by decide) (by decide) 0o644 0o7777
  ⟨by decide, h.1, h.2.1.mpr (by decide), fun hc => (h.2.2.2.2.2.2.2.1.mp hc) (by decide)⟩

/-- C2 as stated fails: on a set that has owner execute, `u+x,u-x` does not
give the set back (it clears the flag). -/
theorem C2_roundtrip_counterexample :
    decode "u+x,u-x".toList 0o755 = 0o655 ∧ decode "u+x,u-x".toList 0o755 ≠ 0o755 := by
  decide

/-- C2 amended: for every starting set `P`, decoding `u+x,u-x` yields `P` with
the owner-execute flag cleared and nothing else changed; the result is `P`
itself exactly when `P` did not have owner execute. -/
theorem C2_roundtrip_amended (P : Nat) (hP : P < 2 ^ 32) :
    decode "u+x,u-x".toList P = P &&& unsignedNot owner_exec ∧
    decode "u+x,u-x".toList P &&& owner_exec = 0 ∧
    (decode "u+x,u-x".toList P = P ↔ P &&& owner_exec = 0) := by
  rw [decode_ux_roundtrip]
  have hclear : P &&& unsignedNot owner_exec &&& owner_exec = 0 := by
    apply Nat.eq_of_testBit_eq
    intro i
    simp only [Nat.testBit_and, testBit_unsignedNot, testBit_owner_exec, Nat.zero_testBit]
    by_cases h6 : 6 = i <;> simp [h6]
  refine ⟨rfl, hclear, ?_, ?_⟩
  · intro h
    rw [h] at hclear
    exact hclear
  · intro h
    apply Nat.eq_of_testBit_eq
    intro i
    have hi := congrArg (fun n => n.testBit i) h
    simp only [Nat.testBit_and, testBit_owner_exec, Nat.zero_testBit] at hi
    simp only [Nat.testBit_and, testBit_unsignedNot, testBit_owner_exec]
    by_cases h6 : 6 = i
    · simp [h6] at hi ⊢
      exact hi
    · by_cases h32 : i < 32
      · simp [h6, h32]
      · have : P.testBit i = false :=
          Nat.testBit_lt_two_pow (lt_of_lt_of_le hP (Nat.pow_le_pow_right (by norm_num) (by omega)))
        simp [this]

/-- C2 amended at the sets `0o644` (no owner execute: unchanged). -/
theorem C2_roundtrip_amended_witness :
    (0o644 : Nat) < 2 ^ 32 ∧ decode "u+x,u-x".toList 0o644 = 0o644 :=
  ⟨by decide, (C2_roundtrip_amended 0o644 (by decide)).2.2.mpr (by decide)⟩

/-- C3 as stated fails: for the mode strings `z=q` and `u*rwx`, which are of
neither valid form, `cmd_chmod` does not fail: it computes a permission set (the
unchanged one) and calls `fs::permissions` with it. -/
theorem C3_invalid_mode_counterexample :
    cmd_chmod (fun _ => some 0o644) ["z=q".toList, "f".toList]
      = some [ChmodOutcome.applied 0o644] ∧
    cmd_chmod (fun _ => some 0o644) ["u*rwx".toList, "f".toList]
      = some [ChmodOutcome.applied 0o644] := by
  decide

/-- C3 amended: `cmd_chmod` has no invalid-mode failure. For every mode string
and every path whose status can be read, a permission set is computed and
applied; the only outcomes without one are the usage message (fewer than two
arguments) and a failed `fs::status`. In the symbolic form a clause whose
operator is neither `+` nor `-` changes nothing, and a clause whose first
character is none of `u`, `g`, `o` is applied like `a`. -/
theorem C3_decode_never_fails :
    (∀ (status : List Char → Option Nat) (mode : List Char) (p : List Char)
        (ps : List (List Char)),
      cmd_chmod status (mode :: p :: ps)
        = some ((p :: ps).map (fun a => chmodOne mode (status a)))) ∧
    (∀ (mode : List Char) (cur : Nat),
      chmodOne mode (some cur) = ChmodOutcome.applied (decode mode cur)) ∧
    (∀ (cur : Nat) (who op : Char) (perms : List Char), op ≠ '+' → op ≠ '-' →
      apply_symbolic cur who op perms = cur) ∧
    (∀ (cur : Nat) (who op : Char) (perms : List Char), who ≠ 'u' → who ≠ 'g' → who ≠ 'o' →
      apply_symbolic cur who op perms = apply_symbolic cur 'a' op perms) := by
  refine ⟨?_, ?_, ?_, ?_⟩
  · intro status mode p ps
    simp [cmd_chmod]
  · intro mode cur
    rfl
  · intro cur who op perms h1 h2
    unfold apply_symbolic
    simp [h1, h2]
  · intro cur who op perms h1 h2 h3
    unfold apply_symbolic
    simp [h1, h2, h3]

/-- C3 amended at the clause `z=q` on the set `0o644`. -/
theorem C3_decode_never_fails_witness :
    apply_symbolic 0o644 'z' '=' ['q'] = 0o644 ∧
    apply_symbolic 0o644 'z' '+' ['x'] = apply_symbolic 0o644 'a' '+' ['x'] :=
  ⟨C3_decode_never_fails.2.2.1 0o644 'z' '=' ['q'] (by decide) (by decide),
   C3_decode_never_fails.2.2.2 0o644 'z' '+' ['x'] (by decide) (by decide) (by decide)⟩

/-- The `getline` loop, started with `tok` already extracted, is the fold over
the clauses of what is left, the first of them prefixed with `tok`. -/
theorem symbolicLoop_eq_fold (ss : List Char) : ∀ (tok : List Char) (newp : Nat),
    symbolicLoop ss tok newp
      = ((((ss.splitOn ',').modifyHead (fun t => tok ++ t)).filter
            (fun t => 3 ≤ t.length)).foldl
          (fun p t => apply_symbolic p (t.getD 0 ' ') (t.getD 1 ' ') (t.drop 2)) newp) := by
  induction ss with
  | nil =>
    intro tok newp
    by_cases h3 : 3 ≤ tok.length
    · have hne : tok ≠ [] := by
        intro h
        simp [h] at h3
      simp [symbolicLoop, clauseStep, List.splitOn, List.modifyHead, h3, hne, Nat.not_lt.mpr h3]
    · have hlt : tok.length < 3 := Nat.lt_of_not_le h3
      simp [symbolicLoop, clauseStep, List.splitOn, List.modifyHead, h3, hlt]
  | cons c ss ih =>
    intro tok newp
    by_cases hc : c = ','
    · subst hc
      have hs : (',' :: ss).splitOn ',' = [] :: ss.splitOn ',' := by
        simp [List.splitOn, List.splitOnP_cons]
      have ih0 := ih [] (clauseStep newp tok)
      simp only [List.nil_append] at ih0
      have hid : (ss.splitOn ',').modifyHead (fun t => t) = ss.splitOn ',' := by
        cases ss.splitOn ',' <;> rfl
      rw [hid] at ih0
      simp only [symbolicLoop, if_true, hs, List.modifyHead, List.append_nil, ih0]
      by_cases h3 : 3 ≤ tok.length
      · simp [List.filter, h3, clauseStep, Nat.not_lt.mpr h3]
      · simp [List.filter, h3, clauseStep, Nat.lt_of_not_le h3]
    · have hs : (c :: ss).splitOn ',' = (ss.splitOn ',').modifyHead (List.cons c) := by
        simp [List.splitOn, List.splitOnP_cons, hc]
      have ih1 := ih (tok ++ [c]) newp
      simp only [symbolicLoop, hc, if_false, hs, ih1]
      congr 2
      cases ss.splitOn ',' <;> simp [List.modifyHead]

/-- The octal branch is skipped exactly for the strings that are not three
decimal digits. -/
theorem parse_octal_eq_none_iff (s : List Char) :
    parse_octal s = none ↔ ¬ (s.length = 3 ∧ s.all Char.isDigit = true) := by
  unfold parse_octal
  by_cases h : s.length ≠ 3 ∨ ¬ (s.all Char.isDigit = true)
  · rw [if_pos h]
    simp only [true_iff]
    rintro ⟨h3, hd⟩
    rcases h with h | h
    · exact h h3
    · exact h hd
  · rw [if_neg h]
    simp only [reduceCtorEq, false_iff, not_not]
    constructor
    · by_contra h3
      exact h (Or.inl h3)
    · by_contra hd
      exact h (Or.inr hd)

/-- For every mode string that `parse_octal` rejects (a string that is not
three decimal digits) and every starting set, the decoded set is the
left-to-right fold of `apply_symbolic` over the comma-separated clauses of the
string, in list order, the clauses shorter than 3 characters dropped. -/
theorem decode_eq_symbolicSpec (mode : List Char) (cur : Nat) (h : parse_octal mode = none) :
    decode mode cur = symbolicSpec mode cur := by
  unfold decode symbolicSpec
  rw [h]
  have hl := symbolicLoop_eq_fold mode [] cur
  have hid : (mode.splitOn ',').modifyHead (fun t => [] ++ t) = mode.splitOn ',' := by
    cases mode.splitOn ',' <;> rfl
  rw [hid] at hl
  exact hl

/-- The fold at the mode `a+r,,g-w,x,u+x` (an empty clause, a one-character
clause) on the set `0o020`. -/
theorem decode_eq_symbolicSpec_example :
    parse_octal "a+r,,g-w,x,u+x".toList = none ∧
    decode "a+r,,g-w,x,u+x".toList 0o020 = symbolicSpec "a+r,,g-w,x,u+x".toList 0o020 ∧
    symbolicSpec "a+r,,g-w,x,u+x".toList 0o020 = 0o544 :=
  ⟨by decide, decode_eq_symbolicSpec "a+r,,g-w,x,u+x".toList 0o020 (by decide), by decide⟩

/-- C4: the code at the mode strings `888` and `189`, which are not octal (a
digit is above 7), on the starting set `0o644`: `parse_octal` accepts them
(`::isdigit` holds for `8` and `9`), so the clause loop does not run and the
decoded set is `0` for `888` and `0o101` for `189`, while the fold of
`apply_symbolic` over the clauses of the string leaves `0o644` unchanged. -/
theorem C4_decimal_digits_take_the_octal_branch :
    parse_octal "888".toList = some 0 ∧
    decode "888".toList 0o644 = 0 ∧
    symbolicSpec "888".toList 0o644 = 0o644 ∧
    decode "189".toList 0o644 = 0o101 ∧
    symbolicSpec "189".toList 0o644 = 0o644 := by
  decide

/-! ### The order of file names -/

theorem filenameLt_irrefl (a : List Char) : filenameLt a a = false := by
  induction a with
  | nil => rfl
  | cons x xs ih => simp [filenameLt, ih]

theorem filenameLt_asymm : ∀ (a b : List Char), filenameLt a b = true → filenameLt b a = false
  | _, [], h => by simp [filenameLt] at h
  | [], _ :: _, _ => by simp [filenameLt]
  | x :: xs, y :: ys, h => by
    simp only [filenameLt] at h ⊢
    by_cases hxy : x < y
    · simp [hxy, lt_asymm hxy]
    · by_cases hyx : y < x
      · simp [hxy, hyx] at h
      · simp only [hxy, hyx, if_false] at h ⊢
        exact filenameLt_asymm xs ys h

theorem filenameLt_trans : ∀ (a b c : List Char),
    filenameLt a b = true → filenameLt b c = true → filenameLt a c = true
  | _, [], _, h, _ => by simp [filenameLt] at h
  | _, _ :: _, [], _, h => by simp [filenameLt] at h
  | [], _ :: _, _ :: _, _, _ => by simp [filenameLt]
  | x :: xs, y :: ys, z :: zs, h1, h2 => by
    simp only [filenameLt] at h1 h2 ⊢
    by_cases hxy : x < y
    · by_cases hyz : y < z
      · simp [lt_trans hxy hyz]
      · by_cases hzy : z < y
        · simp [hyz, hzy] at h2
        · have hyz' : y = z := le_antisymm (not_lt.mp hzy) (not_lt.mp hyz)
          subst hyz'
          simp [hxy]
    · by_cases hyx : y < x
      · simp [hxy, hyx] at h1
      · have hxy' : x = y := le_antisymm (not_lt.mp hyx) (not_lt.mp hxy)
        subst hxy'
        simp only [hxy, if_false] at h1
        by_cases hxz : x < z
        · simp [hxz]
        · by_cases hzx : z < x
          · simp [hxz, hzx] at h2
          · simp only [hxz, hzx, if_false] at h2 ⊢
            exact filenameLt_trans xs ys zs h1 h2

theorem filenameLt_total : ∀ (a b : List Char),
    filenameLt a b = false → filenameLt b a = false → a = b
  | [], [], _, _ => rfl
  | [], _ :: _, h, _ => by simp [filenameLt] at h
  | _ :: _, [], _, h => by simp [filenameLt] at h
  | x :: xs, y :: ys, h1, h2 => by
    simp only [filenameLt] at h1 h2
    by_cases hxy : x < y
    · simp [hxy] at h1
    · by_cases hyx : y < x
      · simp [hyx] at h2
      · have hxy' : x = y := le_antisymm (not_lt.mp hyx) (not_lt.mp hxy)
        subst hxy'
        simp only [hxy, if_false] at h1 h2
        rw [filenameLt_total xs ys h1 h2]

/-- The relation "not after" is transitive. -/
theorem filenameLe_trans (a b c : List Char) (h1 : filenameLt b a = false)
    (h2 : filenameLt c b = false) : filenameLt c a = false := by
  by_contra hca
  have hca' : filenameLt c a = true := by simpa using hca
  by_cases hab : filenameLt a b = true
  · have := filenameLt_trans c a b hca' hab
    simp [this] at h2
  · have hab' : filenameLt a b = false := by simpa using hab
    have e := filenameLt_total a b hab' h1
    subst e
    simp [hca'] at h2

/-! ### The sort -/

theorem sortInsert_perm (x : List Char) (l : List (List Char)) :
    (sortInsert x l).Perm (x :: l) := by
  induction l with
  | nil => exact List.Perm.refl _
  | cons y ys ih =>
    unfold sortInsert
    by_cases h : filenameLt x y = true
    · simp [h]
    · simp only [h]
      exact ((List.Perm.cons y ih).trans (List.Perm.swap x y ys))

theorem stdSort_perm (l : List (List Char)) : (stdSort l).Perm l := by
  induction l with
  | nil => exact List.Perm.refl _
  | cons x xs ih => exact (sortInsert_perm x (stdSort xs)).trans (List.Perm.cons x ih)

theorem sortInsert_sorted (x : List Char) (l : List (List Char))
    (hl : l.Pairwise (fun a b => filenameLt b a = false)) :
    (sortInsert x l).Pairwise (fun a b => filenameLt b a = false) := by
  induction l with
  | nil => simp [sortInsert]
  | cons y ys ih =>
    rw [List.pairwise_cons] at hl
    unfold sortInsert
    by_cases h : filenameLt x y = true
    · simp only [h, if_true]
      have hyx : filenameLt y x = false := filenameLt_asymm x y h
      refine List.Pairwise.cons ?_ (List.Pairwise.cons hl.1 hl.2)
      intro z hz
      rcases List.mem_cons.mp hz with rfl | hz
      · exact hyx
      · exact filenameLe_trans x y z hyx (hl.1 z hz)
    · simp only [h]
      have hxy : filenameLt x y = false := by simpa using h
      refine List.Pairwise.cons ?_ (ih hl.2)
      intro z hz
      have hz' : z ∈ x :: ys := (sortInsert_perm x ys).subset hz
      rcases List.mem_cons.mp hz' with rfl | hz'
      · exact hxy
      · exact hl.1 z hz'

theorem stdSort_sorted (l : List (List Char)) :
    (stdSort l).Pairwise (fun a b => filenameLt b a = false) := by
  induction l with
  | nil => exact List.Pairwise.nil
  | cons x xs ih => exact sortInsert_sorted x (stdSort xs) ih

/-- The listing is the sorted sequence with the hidden names filtered out. -/
theorem lsFlat_eq_filter (all : Bool) (entries : List (List Char)) :
    lsFlat all entries = (stdSort entries).filter (fun n => all || !isHidden n) := by
  unfold lsFlat
  induction stdSort entries with
  | nil => rfl
  | cons x xs ih =>
    rw [List.flatMap_cons, ih, List.filter_cons]
    cases all <;> cases h : isHidden x <;> simp [list_one, h]

/-- The flag `all` after the argument loop: set exactly when `-a` is an argument. -/
theorem lsParse_all (args : List (List Char)) : ∀ (o o' : LsOpts),
    args.foldlM lsArg o = some o' → o'.all = (o.all || decide ("-a".toList ∈ args)) := by
  induction args with
  | nil =>
    intro o o' h
    simp only [List.foldlM, pure, Option.some.injEq] at h
    simp [h]
  | cons a as ih =>
    intro o o' h
    rw [List.foldlM_cons] at h
    cases hstep : lsArg o a with
    | none => simp [hstep] at h
    | some o1 =>
      simp only [hstep, Option.some_bind, Option.bind_eq_bind] at h
      have h1 := ih o1 o' h
      rw [h1]
      by_cases ha : a = "-a".toList
      · have : o1.all = true := by
          unfold lsArg at hstep
          simp only [ha, if_true, Option.some.injEq] at hstep
          rw [← hstep]
        simp [this, ha]
      · have : o1.all = o.all := by
          unfold lsArg at hstep
          simp only [ha, if_false] at hstep
          split_ifs at hstep
          · simp only [Option.some.injEq] at hstep; rw [← hstep]
          · simp only [Option.some.injEq] at hstep; rw [← hstep]
          · cases hs : substr a 9 with
            | none => simp [hs] at hstep
            | some ds =>
              cases hd : stoi ds with
              | none => simp [hs, hd] at hstep
              | some d =>
                simp only [hs, hd, Option.some.injEq] at hstep
                rw [← hstep]
          · simp only [Option.some.injEq] at hstep; rw [← hstep]
        have hmem : ("-a".toList ∈ a :: as) ↔ ("-a".toList ∈ as) := by
          rw [List.mem_cons]
          constructor
          · rintro (e | hm)
            · exact absurd e.symm ha
            · exact hm
          · exact Or.inr
        rw [this, decide_eq_decide.mpr hmem]

/-! ### Symbolic links in a recursive copy -/

/-- A link that does not resolve to a directory and can be read gives a
`create_symlink` with the same target text, at the destination joined with the
relative path of what `fs::weakly_canonical` made of the link. -/
theorem copyEntry_symlink (src dst : List Char) (e : DirEntry) (target : List Char)
    (ht : e.type = FileType.symlink) (hr : e.resolved ≠ some FileType.directory)
    (hl : e.link_text = some target) :
    copyEntry src dst e
      = [FsOp.create_directories (parent_path (pathJoin dst (relative e src))),
         FsOp.create_symlink target (pathJoin dst (relative e src))] := by
  simp [copyEntry, DirEntry.is_directory, DirEntry.is_symlink, ht, hr, hl]

/-- A link that resolves to a directory is answered by `create_directories`. -/
theorem copyEntry_symlink_to_directory (src dst : List Char) (e : DirEntry)
    (ht : e.type = FileType.symlink) (hr : e.resolved = some FileType.directory) :
    copyEntry src dst e = [FsOp.create_directories (pathJoin dst (relative e src))] := by
  simp [copyEntry, DirEntry.is_directory, ht, hr]

/-- C5: the code on the copy of `/s` to `/d`.
* `/s` holds the directory `sub` and the link `l` with the target text `sub`:
  for `l` the copy requests `create_directories /d/sub`; no symbolic link is
  requested, and nothing at `/d/l`.
* `/s` holds the file `a.txt`, the link `f` with the target text `a.txt` and the
  dangling link `x` with the target text `gone`: for `f` the copy requests a
  link at `/d/a.txt` (the place of the file the link resolves to), not at
  `/d/f`; only the dangling link is recreated at its own place, `/d/x`. -/
theorem C5_resolving_links_are_not_recreated :
    copy_file_or_dir "/s".toList "/d".toList true
        [(false, { path := "/s/l".toList, type := FileType.symlink,
                   resolved := some FileType.directory, link_text := some "sub".toList,
                   canonical := "/s/sub".toList }),
         (false, { path := "/s/sub".toList, type := FileType.directory })]
      = [FsOp.create_directories "/d".toList,
         FsOp.create_directories "/d/sub".toList,
         FsOp.create_directories "/d/sub".toList] ∧
    copy_file_or_dir "/s".toList "/d".toList true
        [(false, { path := "/s/a.txt".toList, type := FileType.regular }),
         (false, { path := "/s/f".toList, type := FileType.symlink,
                   resolved := some FileType.regular, link_text := some "a.txt".toList,
                   canonical := "/s/a.txt".toList }),
         (false, { path := "/s/x".toList, type := FileType.symlink,
                   resolved := none, link_text := some "gone".toList })]
      = [FsOp.create_directories "/d".toList,
         FsOp.create_directories "/d".toList,
         FsOp.copy_file "/s/a.txt".toList "/d/a.txt".toList,
         FsOp.create_directories "/d".toList,
         FsOp.create_symlink "a.txt".toList "/d/a.txt".toList,
         FsOp.create_directories "/d".toList,
         FsOp.create_symlink "gone".toList "/d/x".toList] := by
  decide

/-! ### The flat listing -/

/-- C6: the non-tree listing of a directory emits the names in ascending
lexicographic order; it emits exactly the names that do not begin with `.` when
`-a` is absent, and exactly all names when `-a` is present (the flag `all` is set
exactly when `-a` is among the arguments). For the entries `b.txt`, `A.txt`,
`.hidden` the output without `-a` is `A.txt`, `b.txt`, and with `-a` it
contains `.hidden` as well. -/
theorem C6_flat_listing_sorted_filtered (entries : List (List Char)) :
    (∀ all, (lsFlat all entries).Pairwise (fun a b => filenameLt b a = false)) ∧
    (lsFlat false entries).Perm (entries.filter (fun n => n.head? ≠ some '.')) ∧
    (lsFlat true entries).Perm entries ∧
    (∀ (ctx : Ctx) (args : List (List Char)) (o : LsOpts), lsParse ctx args = some o →
      (o.all = true ↔ "-a".toList ∈ args)) ∧
    lsFlat false ["b.txt".toList, "A.txt".toList, ".hidden".toList]
      = ["A.txt".toList, "b.txt".toList] ∧
    lsFlat true ["b.txt".toList, "A.txt".toList, ".hidden".toList]
      = [".hidden".toList, "A.txt".toList, "b.txt".toList] := by
  refine ⟨?_, ?_, ?_, ?_, by decide, by decide⟩
  · intro all
    rw [lsFlat_eq_filter]
    exact (stdSort_sorted entries).filter _
  · rw [lsFlat_eq_filter]
    have hp := (stdSort_perm entries).filter (fun n => false || !isHidden n)
    refine hp.trans ?_
    have hf : (fun n : List Char => false || !isHidden n)
        = (fun n => decide (n.head? ≠ some '.')) := by
      funext n
      simp [isHidden]
    rw [hf]
  · rw [lsFlat_eq_filter]
    have hp := (stdSort_perm entries).filter (fun n => true || !isHidden n)
    simpa using hp
  · intro ctx args o h
    have hall := lsParse_all args _ o h
    rw [hall]
    simp

/-- C6 at the arguments `-l -a docs`: the flag `all` is set. -/
theorem C6_flat_listing_sorted_filtered_witness :
    lsParse { cwd := "/home/u".toList } ["-l".toList, "-a".toList, "docs".toList]
      = some { all := true, longfmt := true, target := "docs".toList, tree := false,
               depth := 1 } ∧
    (({ all := true, longfmt := true, target := "docs".toList, tree := false,
        depth := 1 } : LsOpts).all = true
      ↔ "-a".toList ∈ ["-l".toList, "-a".toList, "docs".toList]) :=
  ⟨by decide,
   (C6_flat_listing_sorted_filtered []).2.2.2.1 { cwd := "/home/u".toList }
     ["-l".toList, "-a".toList, "docs".toList] _ (by decide)⟩

/-! ### The path a command works on -/

/-- The commands that build `ctx.cwd/a` work on the joined path for a relative
token, and on the token itself when it is absolute. -/
theorem cwdPath_spec (ctx : Ctx) (a : List Char) :
    (is_absolute a = true → cwdPath ctx a = a ∧ cdPath ctx a = a) ∧
    (is_absolute a = false → cdPath ctx a = cwdPath ctx a) := by
  constructor
  · intro h
    simp [cwdPath, cdPath, pathJoin, h]
  · intro h
    simp [cwdPath, cdPath, h]

/-- C7: the code in the session directory `/home/u` with the relative token
`docs`: `ls docs` and `find --in=docs` work on the raw token `docs`, while the
join (used by `cd` and by the commands that build `ctx.cwd/a`) is
`/home/u/docs`. -/
theorem C7_ls_and_find_use_the_raw_token :
    lsPath { cwd := "/home/u".toList } ["docs".toList] = some "docs".toList ∧
    findPath { cwd := "/home/u".toList } ["--in=docs".toList] = "docs".toList ∧
    pathJoin "/home/u".toList "docs".toList = "/home/u/docs".toList ∧
    cdPath { cwd := "/home/u".toList } "docs".toList = "/home/u/docs".toList ∧
    cwdPath { cwd := "/home/u".toList } "docs".toList = "/home/u/docs".toList := by
  decide

/-! ### The default pattern of `find` -/

/-- Without a pattern token and without `-r`, a name matches exactly when it
contains the two characters `.*`. -/
theorem findParse_default (ctx : Ctx) :
    findParse ctx [] = { root := ctx.cwd, pattern := ".*".toList, regex_mode := false } ∧
    ∀ dir, findParse ctx ["--in=".toList ++ dir]
      = { root := dir, pattern := ".*".toList, regex_mode := false } := by
  constructor
  · rfl
  · intro dir
    simp [findParse, findArg]

/-- C8: the code for `find` without arguments (and for `find --in=/home/u`) in a
tree holding `a.txt` and `notes`: in substring mode the default pattern `.*`
matches neither name and nothing is reported; a name is reported only when it
contains `.*` literally. -/
theorem C8_default_pattern_matches_nothing_in_substring_mode :
    findMatch (fun _ _ => true) (findParse { cwd := "/home/u".toList } []) "a.txt".toList
      = false ∧
    findLoop (fun _ _ => true) (findParse { cwd := "/home/u".toList } [])
        [(false, "/home/u/a.txt".toList), (false, "/home/u/notes".toList)] = [] ∧
    findLoop (fun _ _ => true) (findParse { cwd := "/".toList } ["--in=/home/u".toList])
        [(false, "/home/u/a.txt".toList), (false, "/home/u/b.*".toList)]
      = [FindLine.found "/home/u/b.*".toList] := by
  decide

/-! ### The argument `--depth=N` -/

/-- C9: the code for `--depth=N`: the digits are taken from position 9 of the
argument, one past the `=`. For a one-digit `N` (`--depth=0`, `--depth=3`)
`std::stoi` gets the empty string and throws; for `--depth=12` the depth is 2
and for `tree --depth=10` it is 0. -/
theorem C9_depth_argument_skips_first_digit :
    lsParse { cwd := "/home/u".toList } ["--depth=0".toList] = none ∧
    lsParse { cwd := "/home/u".toList } ["--depth=3".toList] = none ∧
    lsParse { cwd := "/home/u".toList } ["--depth=12".toList]
      = some { all := false, longfmt := false, target := "/home/u".toList, tree := true,
               depth := 2 } ∧
    treeParse { cwd := "/home/u".toList } ["--depth=10".toList]
      = some { all := false, longfmt := false, target := "/home/u".toList, tree := true,
               depth := 0 } := by
  decide

/-! ### Cancellation -/

/-- The loop of `cmd_find` stops at the first visit at which the flag is set: the
matches of the entries before it are printed, then `find: interrupted`, and no
later entry is looked at. -/
theorem findLoop_interrupted (rs : List Char → List Char → Bool) (o : FindOpts)
    (before : List (Bool × List Char)) (path : List Char) (after : List (Bool × List Char))
    (hb : ∀ v ∈ before, v.1 = false) :
    findLoop rs o (before ++ (true, path) :: after)
      = findLoop rs o before ++ [FindLine.interrupted] := by
  induction before with
  | nil => simp [findLoop]
  | cons v vs ih =>
    obtain ⟨flag, p⟩ := v
    have hflag : flag = false := hb (flag, p) (List.mem_cons_self _ _)
    have ih' := ih (fun w hw => hb w (List.mem_cons_of_mem _ hw))
    subst hflag
    by_cases hm : findMatch rs o (filename p) = true
    · simp [findLoop, hm, ih']
    · simp [findLoop, hm, ih']

/-- The recursive copy issues the same requests whatever the flag is at each visit. -/
theorem copy_ignores_flag (src dst : List Char) (d : Bool) (visits : List (Bool × DirEntry)) :
    copy_file_or_dir src dst d visits
      = copy_file_or_dir src dst d (visits.map (fun v => (false, v.2))) := by
  unfold copy_file_or_dir
  simp [List.flatMap_map]

/-- C10: the code with the cancellation flag set at every visit: `find` stops
before the first entry and prints `find: interrupted`, while the recursive copy
of `/s` (holding `a.txt` and `b.txt`) copies both files, the recursive delete
removes the tree, and the copy-and-delete fallback of `mv` does both; none of
the three reports an interruption. -/
theorem C10_tree_operations_do_not_poll :
    findLoop (fun _ _ => true) (findParse { cwd := "/s".toList } ["txt".toList])
        [(true, "/s/a.txt".toList), (true, "/s/b.txt".toList)] = [FindLine.interrupted] ∧
    copy_file_or_dir "/s".toList "/d".toList true
        [(true, { path := "/s/a.txt".toList, type := FileType.regular }),
         (true, { path := "/s/b.txt".toList, type := FileType.regular })]
      = [FsOp.create_directories "/d".toList,
         FsOp.create_directories "/d".toList,
         FsOp.copy_file "/s/a.txt".toList "/d/a.txt".toList,
         FsOp.create_directories "/d".toList,
         FsOp.copy_file "/s/b.txt".toList "/d/b.txt".toList] ∧
    remove_path true "/s".toList = [FsOp.remove_all "/s".toList] ∧
    mvFallback "/s".toList "/d".toList true
        [(true, { path := "/s/a.txt".toList, type := FileType.regular })] true false
      = [FsOp.create_directories "/d".toList,
         FsOp.create_directories "/d".toList,
         FsOp.copy_file "/s/a.txt".toList "/d/a.txt".toList,
         FsOp.remove_all "/s".toList] := by
  decide

end FileExplorer
